import Mathlib

/-!
Shallow embedding of the KitchenTreasure route planner
(`src/logic/route_logic.py`): the visit scheduler (`generate_route_plan`
and its helpers `parse_freq`, `pick_weeks`), the tour sequencer
(`optimize_daily_route`), and the pipeline entry (`process_route`).

Modelling conventions:
* Python strings are `List Char` (ASCII assumed: `str.upper`/`str.lower`
  on the inputs involved only touches ASCII letters).
* A pandas cell that may be NaN / absent is an `Option`; `none` stands
  for NaN (or, for `Preferred_DAY`, any non-string value, since the code
  guards with `isinstance(preferred, str)`).
* `so_day_count` is keyed by `(so_name, week, day)` in the source, but
  `so_name` is the constant function argument for the whole run, so the
  key here is the pair (week, day), laid out as a flat 24-entry list
  (4 weeks x 6 days).  `week_load` is the 4-entry list of the per-week
  counters.
* Each emitted assignment record carries, besides the fields the code
  writes into `records`, ghost fields used only to state invariants:
  `pre` (the six day-counters of the target week as they stood at the
  capacity check), `day0` (the day chosen before the capacity check) and
  `prefUsed` (whether the valid-preferred-day branch chose `day0`).
* The distance oracle (osmnx graph + networkx shortest paths) is an
  abstract structure: `nearestNode` resolves a coordinate pair to a node
  id and `path` returns the path length in meters, `none` standing for a
  raised `NetworkXNoPath`-style exception.  Distances are naturals
  (meters); the source's division by 1000.0 for kilometers does not
  matter to any claim, so results carry total meters.
* `folium` map rendering (`visualize_route`) writes no plan data and is
  treated as an external renderer that succeeds; `process_route` is
  modelled up to the written Excel plan (`clean_df`), the returned
  status, and which error message kind the failure paths produce.
-/

set_option maxRecDepth 20000

namespace KitchenTreasure

/-- Whitespace removed by Python's `str.strip()`. -/
def isPySpace (c : Char) : Bool :=
  c = ' ' || c = '\t' || c = '\n' || c = '\r' || c = '\x0b' || c = '\x0c'

/-- Python `s.strip()` on a character list. -/
def pyStrip (cs : List Char) : List Char :=
  ((cs.dropWhile isPySpace).reverse.dropWhile isPySpace).reverse

/-- Python `s.upper()` (ASCII). -/
def pyUpper (cs : List Char) : List Char := cs.map Char.toUpper

/-- Python `s.lower()` (ASCII). -/
def pyLower (cs : List Char) : List Char := cs.map Char.toLower

/-- Value of a run of decimal digits. -/
def digitsToNat (cs : List Char) : Nat :=
  cs.foldl (fun acc c => 10 * acc + (c.toNat - 48)) 0

/-- `re.search(r'(\d+)', s)`: the first maximal run of digits, as a number. -/
def firstDigitRun : List Char → Option Nat
  | [] => none
  | c :: cs =>
    if c.isDigit then some (digitsToNat (c :: cs.takeWhile Char.isDigit))
    else firstDigitRun cs

/-- Split an optional leading sign off a stripped numeric string. -/
def pySign (t : List Char) : Int × List Char :=
  match t with
  | [] => (1, [])
  | c :: r => if c = '+' then (1, r) else if c = '-' then (-1, r) else (1, c :: r)

/-- Python `int(s)` for a string: optional surrounding whitespace, an
optional sign, then at least one digit.  (CPython also allows `_` between
digits; that case is irrelevant here because `parse_freq` only reaches
this parse on strings containing no digit at all, where both versions
fail.) -/
def pyIntParse (cs : List Char) : Option Int :=
  let sr := pySign (pyStrip cs)
  if sr.2 ≠ [] ∧ sr.2.all Char.isDigit then some (sr.1 * (digitsToNat sr.2 : Int))
  else none

/-- `parse_freq` (route_logic.py lines 51-62).  `none` is a NaN cell;
`some s` is `str(val)` for any other cell value. -/
def parse_freq (val : Option (List Char)) : Int :=
  match val with
  | none => 1
  | some s =>
    match firstDigitRun s with
    | some n => (n : Int)
    | none =>
      match pyIntParse s with
      | some k => k
      | none => 1

/-- The spec's description of the frequency parser, for comparison with
`parse_freq`: the first integer substring when one exists, else the
default 1 (the spec's intermediate "full numeric parse" never succeeds
on a digit-free string, which `parse_freq_total_nonneg` proves). -/
def parse_freq_spec (val : Option (List Char)) : Int :=
  match val with
  | none => 1
  | some s =>
    match firstDigitRun s with
    | some n => (n : Int)
    | none => 1

/-- `pick_weeks` (route_logic.py lines 65-73); `none` is Python's `None`
for frequency 1. -/
def pick_weeks (freq : Int) : Option (List Nat) :=
  if freq = 1 then none
  else if freq = 2 then some [1, 3]
  else if freq = 3 then some [1, 2, 4]
  else some [1, 2, 3, 4]

/-- `PER_DAY_CAPACITY` (route_logic.py line 19). -/
def PER_DAY_CAPACITY : Nat := 45

/-- `DAYS` (route_logic.py line 20). -/
def DAYS : List (List Char) := ["MON", "TUE", "WED", "THU", "FRI", "SAT"].map String.toList

/-- `WEEKS` (route_logic.py line 21). -/
def WEEKS : List Nat := [1, 2, 3, 4]

/-- Python `list.index` as an option (first index of `n` in `l`). -/
def idxOf? {α : Type} [DecidableEq α] : List α → α → Option Nat
  | [], _ => none
  | x :: xs, n => if x = n then some 0 else (idxOf? xs n).map (· + 1)

/-- One input row of the officer-filtered spreadsheet, with the columns
`generate_route_plan` reads after `normalize_input`. -/
structure InRow where
  soName : List Char
  soErp : List Char
  outletId : Nat
  frequency : Option (List Char)
  preferredDay : Option (List Char)
  lat : Option Int
  lon : Option Int
deriving DecidableEq

/-- One row appended to `records` (route_logic.py lines 129-142), plus
the ghost fields `pre`, `day0`, `prefUsed` described in the header. -/
structure Rec where
  outletId : Nat
  week : Nat
  day : Nat
  visitOrder : Nat
  lat : Option Int
  lon : Option Int
  pre : List Nat
  day0 : Nat
  prefUsed : Bool
deriving DecidableEq

/-- The scheduler's mutable counters: `so_day_count` flattened to
24 entries (index `(week-1)*6 + day`), and `week_load` (index `week-1`). -/
structure SchedState where
  counts : List Nat
  weekLoad : List Nat
deriving DecidableEq

def initState : SchedState :=
  { counts := List.replicate 24 0, weekLoad := List.replicate 4 0 }

/-- `so_day_count[(so_name, wk, d)]` with the day as an index into DAYS. -/
def dayCount (s : SchedState) (wk d : Nat) : Nat :=
  s.counts.getD ((wk - 1) * 6 + d) 0

/-- `week_load[w]`. -/
def weekLoadOf (s : SchedState) (w : Nat) : Nat :=
  s.weekLoad.getD (w - 1) 0

/-- Increment the list entry at an index (in-range indices only). -/
def bumpAt : List Nat → Nat → List Nat
  | [], _ => []
  | x :: xs, 0 => (x + 1) :: xs
  | x :: xs, n + 1 => x :: bumpAt xs n

def bumpDay (s : SchedState) (wk d : Nat) : SchedState :=
  { s with counts := bumpAt s.counts ((wk - 1) * 6 + d) }

def bumpWeek (s : SchedState) (wk : Nat) : SchedState :=
  { s with weekLoad := bumpAt s.weekLoad (wk - 1) }

/-- One comparison step of Python's `min`: keep the current key unless
the next key's value is strictly smaller. -/
def minKey2 (l : Nat → Nat) (cur next : Nat) : Nat := if l next < l cur then next else cur

/-- `min(week_load, key=week_load.get)` (route_logic.py line 107):
Python's `min` over the dict `{1: _, 2: _, 3: _, 4: _}` scans the keys in
insertion order 1,2,3,4 and keeps the current key unless a later one is
strictly smaller, so ties resolve to the lowest week. -/
def argminWeek (s : SchedState) : Nat :=
  minKey2 (weekLoadOf s) (minKey2 (weekLoadOf s) (minKey2 (weekLoadOf s) 1 2) 3) 4

/-- The six day-counters of week `wk`, in DAYS order, as they stand in
state `s` (the `day_counts` dict of route_logic.py line 116). -/
def preOf (s : SchedState) (wk : Nat) : List Nat :=
  (List.range 6).map (fun d => dayCount s wk d)

/-- `min(day_counts, key=day_counts.get)` (route_logic.py line 117):
first day index attaining the minimum, scanning MON..SAT. -/
def argmin6 (pre : List Nat) : Nat :=
  [1, 2, 3, 4, 5].foldl (fun best d => if pre.getD d 0 < pre.getD best 0 then d else best) 0

/-- The `isinstance(preferred, str) and preferred.strip()` guard plus the
normalization `preferred.strip()[:3].upper()` (route_logic.py lines
111-112): `some` carries the normalized 3-letter code when the cell is a
non-blank string. -/
def validPref (row : InRow) : Option (List Char) :=
  match row.preferredDay with
  | some p => if pyStrip p ≠ [] then some (pyUpper ((pyStrip p).take 3)) else none
  | none => none

/-- Day chosen before the capacity check (route_logic.py lines 111-117),
with a flag recording whether the valid-preferred-day branch was taken. -/
def chooseDay0 (s : SchedState) (row : InRow) (wk : Nat) : Nat × Bool :=
  match validPref row with
  | some dstr =>
    (match idxOf? DAYS dstr with
     | some i => (i, true)
     | none => ((wk - 1) % 6, true))
  | none => (argmin6 (preOf s wk), false)

/-- The capacity check and redirect (route_logic.py lines 119-123): if
the chosen day is at capacity, scan MON..SAT for the first day below
capacity; keep the chosen day when every day is at or above capacity. -/
def capacityDay (pre : List Nat) (d0 : Nat) : Nat :=
  if PER_DAY_CAPACITY ≤ pre.getD d0 0 then
    match (List.range 6).find? (fun d => pre.getD d 0 < PER_DAY_CAPACITY) with
    | some d => d
    | none => d0
  else d0

/-- The record one week-iteration appends (route_logic.py lines
129-142): `visit_order` is the day counter just after its increment,
i.e. the pre-check count of the landing day plus one. -/
def recOf (s : SchedState) (row : InRow) (wk : Nat) : Rec :=
  let pre := preOf s wk
  let c := chooseDay0 s row wk
  let day := capacityDay pre c.1
  { outletId := row.outletId, week := wk, day := day,
    visitOrder := pre.getD day 0 + 1, lat := row.lat, lon := row.lon,
    pre := pre, day0 := c.1, prefUsed := c.2 }

/-- The body of `for wk in weeks_assigned` (route_logic.py lines
110-142): pick the day, apply the capacity check, bump both counters and
append the record. -/
def assignStep (row : InRow) (st : SchedState × List Rec) (wk : Nat) : SchedState × List Rec :=
  let a := recOf st.1 row wk
  (bumpWeek (bumpDay st.1 wk a.day) wk, st.2 ++ [a])

/-- `weeks_assigned` for one row (route_logic.py lines 105-108). -/
def weeksFor (s : SchedState) (row : InRow) : List Nat :=
  match pick_weeks (parse_freq row.frequency) with
  | some ws => ws
  | none => [argminWeek s]

/-- The body of `for _, row in df.iterrows()` (route_logic.py lines 98-142). -/
def processRow (st : SchedState × List Rec) (row : InRow) : SchedState × List Rec :=
  (weeksFor st.1 row).foldl (assignStep row) st

/-- The scheduling loop of `generate_route_plan` over the already
filtered rows, returning the `records` list. -/
def scheduleRows (rows : List InRow) : List Rec :=
  (rows.foldl processRow (initState, [])).2

/-- The officer filter of route_logic.py lines 84-87:
`SO_NAME.str.strip().str.lower() == so_name.lower()` and
`SO_ERP_ID.astype(str).str.strip() == so_erp`. -/
def matchesOfficer (soName soErp : List Char) (row : InRow) : Bool :=
  pyLower (pyStrip row.soName) == pyLower soName && pyStrip row.soErp == soErp

/-- `generate_route_plan` (route_logic.py lines 79-146): `none` is the
`return None` taken when the filtered frame (`df`, written out in place
here) is empty. -/
def generate_route_plan (rows : List InRow) (soName soErp : List Char) : Option (List Rec) :=
  if (rows.filter (matchesOfficer soName soErp)).isEmpty then none
  else some (scheduleRows (rows.filter (matchesOfficer soName soErp)))

/-- The rows of one (officer, week, day) bucket of a generated plan, in
generation order. -/
def bucket (tr : List Rec) (wk d : Nat) : List Rec :=
  tr.filter fun a => a.week == wk && a.day == d

/-- The `visit_order` values of one (officer, week, day) bucket. -/
def ordersOf (tr : List Rec) (wk d : Nat) : List Nat :=
  (bucket tr wk d).map (·.visitOrder)

/-- Invariant carried through a scheduler run: the counter list keeps
its 24 entries, every emitted record has a week in 1..4 and a day index
below 6, and each bucket's `visit_order` column is exactly `1..count`
where `count` is that bucket's running day counter. -/
def InvC2 (s : SchedState) (tr : List Rec) : Prop :=
  s.counts.length = 24 ∧
  (∀ a ∈ tr, 1 ≤ a.week ∧ a.week ≤ 4 ∧ a.day < 6) ∧
  (∀ wk d, 1 ≤ wk → wk ≤ 4 → d < 6 → ordersOf tr wk d = List.range' 1 (dayCount s wk d))

/-- The records one input row contributes, starting from state `s`
(`processRow` is trace-append-only, so the incoming trace is irrelevant
and taken empty). -/
def rowRecs (s : SchedState) (row : InRow) : List Rec := (processRow (s, []) row).2

/-! ### The tour sequencer (`optimize_daily_route`, route_logic.py lines 152-187)

The osmnx/networkx geodata stack is abstracted as an `Oracle`:
`nearestNode` is `ox.distance.nearest_nodes` on the graph fetched around
the day's outlets, and `path` is `nx.shortest_path_length(G, a, b,
weight='length')` in meters, with `none` standing for a raised
`NetworkXNoPath`/`NodeNotFound` exception.  An `Option` result of the
sequencer models Python control flow: `none` is an exception escaping
`optimize_daily_route` (to be caught by `process_route`'s `except`). -/

structure Oracle where
  nearestNode : Int × Int → Nat
  path : Nat → Nat → Option Nat

structure OptResult where
  rows : List Rec
  route : Option (List Nat)
  totalMeters : Nat
deriving DecidableEq

/-- `set(nodes[1:])`: deduplication, modelled with first occurrences kept
in order.  CPython's set iteration order is unspecified; the properties
proved below do not depend on the order, only on the element set. -/
def dedupGo (seen : List Nat) : List Nat → List Nat
  | [] => []
  | x :: xs => if x ∈ seen then dedupGo seen xs else x :: dedupGo (x :: seen) xs

/-- Python's `min(xs, key=f)` over a nonempty collection `x :: xs`:
first element attaining the minimum (ties in a set's iteration order are
unspecified in CPython; the fixed first-minimum choice here is one
resolution, and no claim below depends on which tie is chosen). -/
def argminBy (f : Nat → Nat) (x : Nat) (xs : List Nat) : Nat :=
  xs.foldl (fun best n => if f n < f best then n else best) x

/-- The `while unvisited:` loop (route_logic.py lines 172-181).  The
`min(unvisited, key=lambda n: nx.shortest_path_length(...))` evaluates
the key on every unvisited node with no exception handler, so one
failing query aborts the whole loop (`none`); the `try/except` only
guards the repeated query for the already chosen `nearest`, whose
failure contributes 0.  Fuel is the length of `unvisited` at the call
site, so the fuel-exhaustion branch is unreachable there.  Returns the
visit sequence after the start node, and the accumulated meters.  (The
source's local variable `nearest` is written out in place here.) -/
def nnLoop (orc : Oracle) : Nat → Nat → List Nat → Option (List Nat × Nat)
  | _, _, [] => some ([], 0)
  | 0, _, _ :: _ => none
  | fuel + 1, current, u :: us =>
    if ((u :: us).all fun n => (orc.path current n).isSome) then
      match nnLoop orc fuel (argminBy (fun n => (orc.path current n).getD 0) u us)
          ((u :: us).erase (argminBy (fun n => (orc.path current n).getD 0) u us)) with
      | some (rest, t) =>
        some (argminBy (fun n => (orc.path current n).getD 0) u us :: rest,
          (orc.path current (argminBy (fun n => (orc.path current n).getD 0) u us)).getD 0 + t)
      | none => none
    else none

/-- `df_day.reset_index(drop=True); df_day['VISIT_ORDER'] = df_day.index + 1`:
reassign visit order by position, starting at `n`. -/
def reindexFrom : Nat → List Rec → List Rec
  | _, [] => []
  | n, r :: rs => { r with visitOrder := n } :: reindexFrom (n + 1) rs

/-- The `isna().any().any()` test on the Latitude/Longitude columns. -/
def hasMissingCoord (rows : List Rec) : Bool :=
  rows.any fun r => r.lat.isNone || r.lon.isNone

/-- The resolved reference node of every row, in row order
(route_logic.py lines 164-165). -/
def nodesOf (orc : Oracle) (rows : List Rec) : List Nat :=
  rows.map fun r => orc.nearestNode (r.lat.getD 0, r.lon.getD 0)

/-- `optimize_daily_route` (route_logic.py lines 152-187).  The skip
branch keeps the input order, reassigns `visit_order` by position and
reports no route and zero distance.  Otherwise the greedy
nearest-neighbor tour runs over the resolved nodes;
`order = [nodes.index(n) for n in route if n in nodes]` maps each
visited node to the first row resolving to it, and `df_day.iloc[order]`
re-orders the rows.  (`graph_from_point` and the mean-coordinate center
only build the oracle and are absorbed into it.) -/
def optimize_daily_route (orc : Oracle) (rows : List Rec) : Option OptResult :=
  if hasMissingCoord rows || rows.length < 2 then
    some ⟨reindexFrom 1 rows, none, 0⟩
  else
    match nodesOf orc rows with
    | [] => none
    | start :: restNodes =>
      let unvisited := dedupGo [] restNodes
      match nnLoop orc unvisited.length start unvisited with
      | none => none
      | some (visits, total) =>
        let route := start :: visits
        let order := route.filterMap (idxOf? (start :: restNodes))
        let newRows := order.filterMap (fun i => rows.get? i)
        some ⟨reindexFrom 1 newRows, some route, total⟩

/-! ### The pipeline entry (`process_route`, route_logic.py lines 244-284)

Modelled up to the data a claim mentions: the returned status (with the
error-message kind as a constructor) and the plan the run writes to the
output Excel file (`clean_df`), `none` when no file is written.  The map
rendering (`visualize_route`) writes no plan data and is treated as an
always-succeeding external renderer; the reported `distance_km` and the
URLs are not modelled. -/

inductive RouteStatus where
  | success
  | errNoRecords
  | errNoDataForSlice
  | errException
deriving DecidableEq

structure ProcOut where
  status : RouteStatus
  written : Option (List Rec)
deriving DecidableEq

/-- The day string stored in a record's DAY column. -/
def dayStr (d : Nat) : List Char := DAYS.getD d []

/-- Lexicographic `<` on Python strings (how pandas compares the DAY
column's values when sorting). -/
def listCharLt : List Char → List Char → Bool
  | [], [] => false
  | [], _ :: _ => true
  | _ :: _, [] => false
  | c :: cs, d :: ds => if c < d then true else if d < c then false else listCharLt cs ds

/-- `sort_values(by=["WEEK", "DAY", "VISIT_ORDER"], ascending=True)`:
rows ordered by week, then day string, then visit order.  All sort keys
of a generated plan are distinct, so any comparison sort produces this
order; insertion sort is used here. -/
def recKeyLe (a b : Rec) : Bool :=
  if a.week < b.week then true
  else if b.week < a.week then false
  else if listCharLt (dayStr a.day) (dayStr b.day) then true
  else if listCharLt (dayStr b.day) (dayStr a.day) then false
  else decide (a.visitOrder ≤ b.visitOrder)

def insertByLe (x : Rec) : List Rec → List Rec
  | [] => [x]
  | y :: ys => if recKeyLe x y then x :: y :: ys else y :: insertByLe x ys

def sortPlan (l : List Rec) : List Rec := l.foldr insertByLe []

/-- The (week, day) slice `process_route` hands to the sequencer
(route_logic.py line 250). -/
def sliceOf (plan : List Rec) (week : Nat) (day : List Char) : List Rec :=
  plan.filter fun r => r.week == week && dayStr r.day == day

/-- `process_route` (route_logic.py lines 244-284). -/
def process_route (orc : Oracle) (rows : List InRow) (soName soErp : List Char)
    (week : Nat) (day : List Char) : ProcOut :=
  match generate_route_plan rows soName soErp with
  | none => ⟨.errNoRecords, none⟩
  | some routeDf =>
    if (sliceOf routeDf week day).isEmpty then ⟨.errNoDataForSlice, none⟩
    else
      match optimize_daily_route orc (sliceOf routeDf week day) with
      | none => ⟨.errException, none⟩
      | some _ => ⟨.success, some (sortPlan routeDf)⟩

/-! ### Concrete inputs used by witnesses and counterexamples -/

/-- An input row for officer "ANA V" (erp "7") with the given outlet id,
frequency cell and preferred-day cell. -/
def mkRow (id : Nat) (freq pref : Option String) : InRow :=
  { soName := "ANA V".toList, soErp := "7".toList, outletId := id,
    frequency := freq.map String.toList, preferredDay := pref.map String.toList,
    lat := some 0, lon := some 0 }

/-- 272 frequency-2 outlets with preferred days filling weeks 1 and 3 of
officer "ANA V" to capacity on all six days (45 outlets per day), then
two more MON-preferred outlets that overflow MON of weeks 1 and 3. -/
def bigInput : List InRow :=
  List.replicate 45 (mkRow 0 (some "2") (some "MON")) ++
  List.replicate 45 (mkRow 0 (some "2") (some "TUE")) ++
  List.replicate 45 (mkRow 0 (some "2") (some "WED")) ++
  List.replicate 45 (mkRow 0 (some "2") (some "THU")) ++
  List.replicate 45 (mkRow 0 (some "2") (some "FRI")) ++
  List.replicate 45 (mkRow 0 (some "2") (some "SAT")) ++
  [mkRow 1 (some "2") (some "MON"), mkRow 2 (some "2") (some "MON")]

/-- The week-1 record of outlet 2 of `bigInput`: its capacity check saw
every day of week 1 at or above 45 (MON already overflowed to 46 by
outlet 1), and it landed on MON, not on a least-loaded day. -/
def recBig : Rec :=
  { outletId := 2, week := 1, day := 0, visitOrder := 47, lat := some 0, lon := some 0,
    pre := [46, 45, 45, 45, 45, 45], day0 := 0, prefUsed := true }

/-- A day-slice row for the sequencer with the given outlet id and
coordinates. -/
def mkSeqRec (id : Nat) (la lo : Option Int) : Rec :=
  { outletId := id, week := 1, day := 0, visitOrder := 1, lat := la, lon := lo,
    pre := [0, 0, 0, 0, 0, 0], day0 := 0, prefUsed := false }

/-- Oracle with two nodes 1 and 2 and no path between them: `path 1 2`
raises (`none`), modelling an unreachable pair. -/
def orcBad : Oracle :=
  { nearestNode := fun p => if p.1 = 0 then 1 else 2,
    path := fun a b => if a = b then some 0 else none }

/-- Day slice of two coordinate-bearing outlets resolving to the
mutually unreachable nodes of `orcBad`. -/
def rowsBad : List Rec := [mkSeqRec 1 (some 0) (some 0), mkSeqRec 2 (some 1) (some 1)]

/-- Input rows for officer "ANA V" whose week-1 MON slice is exactly the
two mutually unreachable outlets of `rowsBad`'s coordinates. -/
def inBad : List InRow :=
  [{ mkRow 1 (some "2") (some "MON") with lat := some 0, lon := some 0 },
   { mkRow 2 (some "2") (some "MON") with lat := some 1, lon := some 1 }]

/-- Oracle resolving every coordinate to the same node 7, with only the
trivial path `7 -> 7`. -/
def orcDup : Oracle :=
  { nearestNode := fun _ => 7, path := fun a b => if a = b then some 0 else none }

/-- Two distinct outlets with identical coordinates: both resolve to
node 7 of `orcDup`. -/
def rowsDup : List Rec := [mkSeqRec 1 (some 5) (some 5), mkSeqRec 2 (some 5) (some 5)]

/-- Total oracle: nodes are the latitude, every path succeeds with the
absolute difference as its length. -/
def orcTotal : Oracle :=
  { nearestNode := fun p => p.1.toNat, path := fun a b => some (a - b + (b - a)) }

/-- Three outlets with pairwise distinct coordinates (hence distinct
`orcTotal` nodes 10, 30, 20). -/
def rowsTri : List Rec :=
  [mkSeqRec 1 (some 10) (some 0), mkSeqRec 2 (some 30) (some 0), mkSeqRec 3 (some 20) (some 0)]

/-- One-outlet day slice (the sequencer's skip branch). -/
def rowsOne : List Rec := [mkSeqRec 9 (some 3) (some 4)]

/-- A single frequency-2 MON-preferred outlet of officer "ANA V":
its plan has rows in weeks 1 and 3 only, all on MON. -/
def inSmall : List InRow := [mkRow 5 (some "2") (some "MON")]

/-- The canonical sorted plan of `inSmall`'s run, for the C10 witness. -/
def planSmall : List Rec :=
  sortPlan (scheduleRows (inSmall.filter (matchesOfficer ("ANA V".toList) ("7".toList))))

/-! ### Basic facts about the counter primitives -/

theorem bumpAt_length (l : List Nat) (i : Nat) : (bumpAt l i).length = l.length := by
  induction l generalizing i with
  | nil => rfl
  | cons x xs ih => cases i with
    | zero => rfl
    | succ n => simp [bumpAt, ih n]

theorem getD_bumpAt_self (l : List Nat) (i : Nat) (h : i < l.length) :
    (bumpAt l i).getD i 0 = l.getD i 0 + 1 := by
  induction l generalizing i with
  | nil => simp at h
  | cons x xs ih => cases i with
    | zero => rfl
    | succ n => simpa [bumpAt, List.getD] using ih n (by simpa using h)

theorem getD_bumpAt_ne (l : List Nat) (i j : Nat) (h : i ≠ j) :
    (bumpAt l i).getD j 0 = l.getD j 0 := by
  induction l generalizing i j with
  | nil => rfl
  | cons x xs ih =>
    cases i with
    | zero => cases j with
      | zero => exact absurd rfl h
      | succ m => rfl
    | succ n => cases j with
      | zero => rfl
      | succ m => simpa [bumpAt, List.getD] using ih n m (by omega)

theorem getD_replicate_zero (n i : Nat) : (List.replicate n 0).getD i 0 = 0 := by
  induction n generalizing i with
  | zero => rfl
  | succ m ih => cases i with
    | zero => rfl
    | succ k => simp only [List.replicate, List.getD]; exact ih k

theorem preOf_getD (s : SchedState) (wk d : Nat) (hd : d < 6) :
    (preOf s wk).getD d 0 = dayCount s wk d := by
  interval_cases d <;> rfl

theorem preOf_length (s : SchedState) (wk : Nat) : (preOf s wk).length = 6 := rfl

/-! ### The day and week argmin scans -/

theorem argmin6_lt (pre : List Nat) : argmin6 pre < 6 := by
  unfold argmin6
  simp only [List.foldl_cons, List.foldl_nil]
  split_ifs <;> omega

theorem argmin6_min (pre : List Nat) (d : Nat) (hd : d < 6) :
    pre.getD (argmin6 pre) 0 ≤ pre.getD d 0 := by
  unfold argmin6
  simp only [List.foldl_cons, List.foldl_nil]
  interval_cases d <;> split_ifs <;> omega

theorem argminWeek_bounds (s : SchedState) : 1 ≤ argminWeek s ∧ argminWeek s ≤ 4 := by
  simp only [argminWeek, minKey2]
  split_ifs <;> omega

theorem argminWeek_min (s : SchedState) (w : Nat) (hw : w ∈ WEEKS) :
    weekLoadOf s (argminWeek s) ≤ weekLoadOf s w := by
  have hw4 : w = 1 ∨ w = 2 ∨ w = 3 ∨ w = 4 := by simpa [WEEKS] using hw
  simp only [argminWeek, minKey2]
  rcases hw4 with rfl | rfl | rfl | rfl <;> split_ifs <;> omega

theorem argminWeek_tie (s : SchedState) (w : Nat) (hw : w ∈ WEEKS)
    (h : weekLoadOf s w = weekLoadOf s (argminWeek s)) : argminWeek s ≤ w := by
  have hw4 : w = 1 ∨ w = 2 ∨ w = 3 ∨ w = 4 := by simpa [WEEKS] using hw
  revert h
  simp only [argminWeek, minKey2]
  rcases hw4 with rfl | rfl | rfl | rfl <;> split_ifs <;> omega

/-! ### The capacity check -/

theorem capacityDay_lt (pre : List Nat) (d0 : Nat) (h0 : d0 < 6) : capacityDay pre d0 < 6 := by
  unfold capacityDay
  split_ifs with hcap
  · cases hf : (List.range 6).find? (fun d => pre.getD d 0 < PER_DAY_CAPACITY) with
    | none => simpa [hf] using h0
    | some d =>
      have hd : d ∈ List.range 6 := List.mem_of_find?_eq_some hf
      simpa [hf] using List.mem_range.mp hd
  · exact h0

/-- If the landing day is still at or above capacity, the MON..SAT scan
found no day below capacity, so every day of the week is full. -/
theorem capacityDay_full (pre : List Nat) (d0 : Nat)
    (h : PER_DAY_CAPACITY ≤ pre.getD (capacityDay pre d0) 0) :
    ∀ d, d < 6 → PER_DAY_CAPACITY ≤ pre.getD d 0 := by
  intro d hd
  by_cases hcap : PER_DAY_CAPACITY ≤ pre.getD d0 0
  · cases hf : (List.range 6).find? (fun d => pre.getD d 0 < PER_DAY_CAPACITY) with
    | none =>
      have := List.find?_eq_none.mp hf d (List.mem_range.mpr hd)
      simpa using this
    | some d1 =>
      have hp : pre.getD d1 0 < PER_DAY_CAPACITY := by
        simpa using List.find?_some hf
      have hc : capacityDay pre d0 = d1 := by
        unfold capacityDay
        rw [if_pos hcap, hf]
      rw [hc] at h
      exact absurd (lt_of_le_of_lt h hp) (lt_irrefl _)
  · have hc : capacityDay pre d0 = d0 := by
      unfold capacityDay
      rw [if_neg hcap]
    rw [hc] at h
    exact absurd h hcap

/-- When every day of the week is already at capacity, the scan finds
nothing and the originally chosen day is kept. -/
theorem capacityDay_allFull (pre : List Nat) (d0 : Nat)
    (h : ∀ d, d < 6 → PER_DAY_CAPACITY ≤ pre.getD d 0) : capacityDay pre d0 = d0 := by
  unfold capacityDay
  have hf : (List.range 6).find? (fun d => pre.getD d 0 < PER_DAY_CAPACITY) = none := by
    refine List.find?_eq_none.mpr fun d hd => ?_
    simpa using Nat.not_lt.mpr (h d (List.mem_range.mp hd))
  split_ifs with hcap
  · rw [hf]
  · rfl

/-! ### The pre-capacity day choice -/

theorem idxOf?_lt_length {α : Type} [DecidableEq α] (l : List α) (a : α) (i : Nat)
    (h : idxOf? l a = some i) : i < l.length := by
  induction l generalizing i with
  | nil => simp [idxOf?] at h
  | cons x xs ih =>
    by_cases hx : x = a
    · rw [idxOf?, if_pos hx] at h
      injection h with h0
      simp [← h0]
    · rw [idxOf?, if_neg hx] at h
      obtain ⟨j, hj, hji⟩ := Option.map_eq_some'.mp h
      have := ih j hj
      simp only [List.length_cons]
      omega

theorem chooseDay0_lt (s : SchedState) (row : InRow) (wk : Nat) :
    (chooseDay0 s row wk).1 < 6 := by
  cases hv : validPref row with
  | none => simpa [chooseDay0, hv] using argmin6_lt (preOf s wk)
  | some dstr =>
    cases hi : idxOf? DAYS dstr with
    | none => simpa [chooseDay0, hv, hi] using Nat.mod_lt _ (show 0 < 6 by omega)
    | some i =>
      have h6 : i < 6 := idxOf?_lt_length DAYS dstr i hi
      simpa [chooseDay0, hv, hi] using h6

theorem chooseDay0_noPref (s : SchedState) (row : InRow) (wk : Nat)
    (h : (chooseDay0 s row wk).2 = false) :
    (chooseDay0 s row wk).1 = argmin6 (preOf s wk) := by
  cases hv : validPref row with
  | none => simp [chooseDay0, hv]
  | some dstr =>
    rw [chooseDay0, hv] at h
    cases hi : idxOf? DAYS dstr <;> simp [hi] at h

/-! ### Every record of a run comes from one week-iteration -/

theorem assignStep_trace (row : InRow) (st : SchedState × List Rec) (wk : Nat) :
    (assignStep row st wk).2 = st.2 ++ [recOf st.1 row wk] := rfl

theorem mem_foldl_assign (row : InRow) (P : Rec → Prop)
    (hP : ∀ s wk, P (recOf s row wk)) :
    ∀ (ws : List Nat) (st : SchedState × List Rec),
      (∀ a ∈ st.2, P a) → ∀ a ∈ (ws.foldl (assignStep row) st).2, P a := by
  intro ws
  induction ws with
  | nil => exact fun st h => h
  | cons w ws ih =>
    intro st h
    refine ih _ fun a ha => ?_
    rw [assignStep_trace] at ha
    rcases List.mem_append.mp ha with h1 | h2
    · exact h _ h1
    · rw [List.mem_singleton] at h2
      subst h2
      exact hP _ _

/-- Every record of a scheduler run is `recOf s row wk` for some
intermediate state, input row and week. -/
theorem mem_scheduleRows_prop (P : Rec → Prop)
    (hP : ∀ s row wk, P (recOf s row wk)) (rows : List InRow) :
    ∀ a ∈ scheduleRows rows, P a := by
  suffices h : ∀ (l : List InRow) (st : SchedState × List Rec),
      (∀ a ∈ st.2, P a) → ∀ a ∈ (l.foldl processRow st).2, P a by
    exact h rows (initState, []) (by simp)
  intro l
  induction l with
  | nil => exact fun st h => h
  | cons r rs ih =>
    intro st h
    exact ih _ (mem_foldl_assign r P (fun s wk => hP s r wk) _ st h)

/-- A single week-iteration can only push its landing day past the
capacity when the capacity check saw every day of the week at or above
capacity. -/
theorem recOf_overflow (s : SchedState) (row : InRow) (wk : Nat)
    (h : PER_DAY_CAPACITY < (recOf s row wk).visitOrder) :
    ∀ d, d < 6 → PER_DAY_CAPACITY ≤ (recOf s row wk).pre.getD d 0 := by
  have hv : (recOf s row wk).visitOrder =
      (preOf s wk).getD (capacityDay (preOf s wk) (chooseDay0 s row wk).1) 0 + 1 := rfl
  have h45 : PER_DAY_CAPACITY ≤
      (preOf s wk).getD (capacityDay (preOf s wk) (chooseDay0 s row wk).1) 0 := by omega
  exact capacityDay_full _ _ h45

/-- C1: after an assignment, an (officer, week, day) bucket can stand
above the per-day capacity of 45 only when that assignment's capacity
check already saw all six days MON..SAT of its (officer, week) at or
above 45.  The bucket's count after the assignment is the assignment's
`visit_order`, and `pre` is the week's six-day counter snapshot at the
capacity check. -/
theorem capacity_overflow_only_when_week_full (rows : List InRow) (a : Rec)
    (ha : a ∈ scheduleRows rows) (hvo : 45 < a.visitOrder) :
    ∀ d, d < 6 → 45 ≤ a.pre.getD d 0 := by
  refine mem_scheduleRows_prop
    (fun a => 45 < a.visitOrder → ∀ d, d < 6 → 45 ≤ a.pre.getD d 0)
    (fun s row wk h => ?_) rows a ha hvo
  exact recOf_overflow s row wk h

/-- Witness for C1 at a concrete run: the 46th and 47th MON outlets of
`bigInput` overflow week 1, whose capacity check saw all six days full. -/
theorem capacity_overflow_only_when_week_full_witness : 45 ≤ recBig.pre.getD 0 0 :=
  capacity_overflow_only_when_week_full bigInput recBig (by decide) (by decide) 0 (by decide)

/-! ### C4: where an assignment lands when the whole week is full -/

/-- C4 counterexample: the claim "when the capacity check finds all six
days at or above 45, the assignment lands on the least-loaded day" is
false on the code.  In `bigInput`'s run the week-1 record of outlet 2
has its capacity-check snapshot `pre = [46, 45, 45, 45, 45, 45]` (all at
or above 45) yet lands on its preferred day MON (index 0, count 46),
while TUE..SAT hold only 45. -/
theorem overflow_not_least_loaded_counterexample :
    ¬ (∀ a ∈ scheduleRows bigInput,
        (∀ d, d < 6 → 45 ≤ a.pre.getD d 0) →
        ∀ d, d < 6 → a.pre.getD a.day 0 ≤ a.pre.getD d 0) := by
  decide

/-- C4 amended: when the capacity check sees all six days MON..SAT at or
above capacity, the assignment keeps the day chosen before the check
(`day0`); that day is the least-loaded one (in particular, a least
element of the snapshot) only when no valid preferred day was used —
with a valid preferred day the assignment lands on the preferred day,
which need not be least-loaded. -/
theorem overflow_keeps_original_day (rows : List InRow) (a : Rec)
    (ha : a ∈ scheduleRows rows) (hfull : ∀ d, d < 6 → 45 ≤ a.pre.getD d 0) :
    a.day = a.day0 ∧
      (a.prefUsed = false → ∀ d, d < 6 → a.pre.getD a.day0 0 ≤ a.pre.getD d 0) := by
  refine mem_scheduleRows_prop
    (fun a => (∀ d, d < 6 → 45 ≤ a.pre.getD d 0) →
      a.day = a.day0 ∧
        (a.prefUsed = false → ∀ d, d < 6 → a.pre.getD a.day0 0 ≤ a.pre.getD d 0))
    (fun s row wk h => ?_) rows a ha hfull
  constructor
  · exact capacityDay_allFull (preOf s wk) (chooseDay0 s row wk).1 h
  · intro hnp d hd
    have h0 : (recOf s row wk).day0 = argmin6 (preOf s wk) := chooseDay0_noPref s row wk hnp
    have := argmin6_min (preOf s wk) d hd
    rw [h0]
    exact this

/-- Witness for the amended C4 at the concrete overflowing record of
`bigInput`'s run. -/
theorem overflow_keeps_original_day_witness :
    recBig.day = recBig.day0 ∧
      (recBig.prefUsed = false →
        ∀ d, d < 6 → recBig.pre.getD recBig.day0 0 ≤ recBig.pre.getD d 0) :=
  overflow_keeps_original_day bigInput recBig (by decide) (by decide)

/-! ### C2: visit orders are contiguous 1..count in every bucket -/

theorem bucket_append (tr₁ tr₂ : List Rec) (wk d : Nat) :
    bucket (tr₁ ++ tr₂) wk d = bucket tr₁ wk d ++ bucket tr₂ wk d :=
  List.filter_append _ _

theorem invC2_init : InvC2 initState [] := by
  refine ⟨by simp [initState], by simp, fun wk d _ _ _ => ?_⟩
  have h0 : dayCount initState wk d = 0 := getD_replicate_zero _ _
  simp [ordersOf, bucket, h0]

theorem invC2_step (row : InRow) (s : SchedState) (tr : List Rec) (wk : Nat)
    (hwk1 : 1 ≤ wk) (hwk4 : wk ≤ 4) (hInv : InvC2 s tr) :
    InvC2 (assignStep row (s, tr) wk).1 (assignStep row (s, tr) wk).2 := by
  obtain ⟨hlen, hvalid, hord⟩ := hInv
  set a := recOf s row wk with ha
  have haday : a.day < 6 := capacityDay_lt _ _ (chooseDay0_lt s row wk)
  have haweek : a.week = wk := rfl
  have hidx : (wk - 1) * 6 + a.day < 24 := by omega
  have hcounts : (assignStep row (s, tr) wk).1.counts =
      bumpAt s.counts ((wk - 1) * 6 + a.day) := rfl
  refine ⟨by rw [hcounts, bumpAt_length]; exact hlen, ?_, ?_⟩
  · intro b hb
    rcases List.mem_append.mp hb with h1 | h2
    · exact hvalid b h1
    · rw [List.mem_singleton] at h2
      subst h2
      exact ⟨hwk1, hwk4, haday⟩
  · intro wk' d' h1 h4 hd6
    have htr : (assignStep row (s, tr) wk).2 = tr ++ [a] := rfl
    rw [htr]
    by_cases heq : wk' = wk ∧ d' = a.day
    · obtain ⟨rfl, rfl⟩ := heq
      have hvo : a.visitOrder = dayCount s wk' a.day + 1 := by
        have hshow : a.visitOrder = (preOf s wk').getD a.day 0 + 1 := rfl
        rw [hshow, preOf_getD s wk' _ haday]
      have hone : ordersOf [a] wk' a.day = [a.visitOrder] := by
        simp [ordersOf, bucket, haweek]
      have hcnt : dayCount (assignStep row (s, tr) wk').1 wk' a.day =
          dayCount s wk' a.day + 1 := by
        show (bumpAt s.counts ((wk' - 1) * 6 + a.day)).getD ((wk' - 1) * 6 + a.day) 0 = _
        rw [getD_bumpAt_self _ _ (by omega)]
        rfl
      rw [ordersOf, bucket_append, List.map_append]
      rw [show (bucket [a] wk' a.day).map (·.visitOrder) = ordersOf [a] wk' a.day from rfl]
      rw [hone, show (bucket tr wk' a.day).map (·.visitOrder) = ordersOf tr wk' a.day from rfl]
      rw [hord wk' a.day h1 h4 haday, hcnt, hvo, List.range'_concat]
      simp [Nat.add_comm]
    · have hnone : ordersOf [a] wk' d' = [] := by
        have : (a.week == wk' && a.day == d') = false := by
          rw [Bool.and_eq_false_iff]
          by_cases hw : wk' = wk
          · subst hw
            right
            have hdne : d' ≠ a.day := fun hc => heq ⟨rfl, hc⟩
            simpa using fun hc => hdne hc.symm
          · left
            rw [haweek]
            simpa using fun hc => hw hc.symm
        simp [ordersOf, bucket, this]
      have hcnt : dayCount (assignStep row (s, tr) wk).1 wk' d' = dayCount s wk' d' := by
        show (bumpAt s.counts ((wk - 1) * 6 + a.day)).getD ((wk' - 1) * 6 + d') 0 = _
        rw [getD_bumpAt_ne]
        · rfl
        · intro hc
          apply heq
          constructor <;> omega
      rw [ordersOf, bucket_append, List.map_append]
      rw [show (bucket [a] wk' d').map (·.visitOrder) = ordersOf [a] wk' d' from rfl, hnone]
      rw [show (bucket tr wk' d').map (·.visitOrder) = ordersOf tr wk' d' from rfl]
      rw [hord wk' d' h1 h4 hd6, hcnt, List.append_nil]

theorem weeksFor_valid (s : SchedState) (row : InRow) :
    ∀ w ∈ weeksFor s row, 1 ≤ w ∧ w ≤ 4 := by
  intro w hw
  unfold weeksFor at hw
  cases hpw : pick_weeks (parse_freq row.frequency) with
  | none =>
    rw [hpw] at hw
    rw [List.mem_singleton] at hw
    subst hw
    exact argminWeek_bounds s
  | some ws =>
    rw [hpw] at hw
    have hws : ws = [1, 3] ∨ ws = [1, 2, 4] ∨ ws = [1, 2, 3, 4] := by
      unfold pick_weeks at hpw
      split_ifs at hpw <;> simp_all
    rcases hws with rfl | rfl | rfl <;> (simp at hw; omega)

theorem invC2_foldl_weeks (row : InRow) :
    ∀ (ws : List Nat) (st : SchedState × List Rec),
      (∀ w ∈ ws, 1 ≤ w ∧ w ≤ 4) → InvC2 st.1 st.2 →
      InvC2 (ws.foldl (assignStep row) st).1 (ws.foldl (assignStep row) st).2 := by
  intro ws
  induction ws with
  | nil => exact fun st _ h => h
  | cons w ws ih =>
    intro st hval h
    have hw := hval w (by simp)
    have hstep := invC2_step row st.1 st.2 w hw.1 hw.2 h
    refine ih _ (fun w' hw' => hval w' (by simp [hw'])) ?_
    simpa using hstep

theorem invC2_processRow (row : InRow) (st : SchedState × List Rec)
    (h : InvC2 st.1 st.2) : InvC2 (processRow st row).1 (processRow st row).2 :=
  invC2_foldl_weeks row (weeksFor st.1 row) st (weeksFor_valid st.1 row) h

theorem invC2_schedule (rows : List InRow) :
    InvC2 (rows.foldl processRow (initState, [])).1 (scheduleRows rows) := by
  suffices h : ∀ (l : List InRow) (st : SchedState × List Rec), InvC2 st.1 st.2 →
      InvC2 (l.foldl processRow st).1 (l.foldl processRow st).2 from
    h rows (initState, []) invC2_init
  intro l
  induction l with
  | nil => exact fun st h => h
  | cons r rs ih => exact fun st h => ih _ (invC2_processRow r st h)

/-- C2: in every (officer, week, day) bucket of a generated plan the
`visit_order` column is exactly the contiguous sequence `1..count`
(count = number of assignments in the bucket): no gaps, no duplicates,
for every input. -/
theorem visit_orders_contiguous (rows : List InRow) (wk d : Nat) :
    ordersOf (scheduleRows rows) wk d =
      List.range' 1 (bucket (scheduleRows rows) wk d).length := by
  obtain ⟨hlen, hvalid, hord⟩ := invC2_schedule rows
  by_cases hv : 1 ≤ wk ∧ wk ≤ 4 ∧ d < 6
  · have he := hord wk d hv.1 hv.2.1 hv.2.2
    have hlen2 : (bucket (scheduleRows rows) wk d).length =
        dayCount (rows.foldl processRow (initState, [])).1 wk d := by
      have hl : (ordersOf (scheduleRows rows) wk d).length =
          (List.range' 1 (dayCount (rows.foldl processRow (initState, [])).1 wk d)).length := by
        rw [he]
      simpa [ordersOf, List.length_map, List.length_range'] using hl
    rw [he, hlen2]
  · have hemp : bucket (scheduleRows rows) wk d = [] := by
      refine List.filter_eq_nil_iff.mpr fun a ha => ?_
      have hva := hvalid a ha
      intro hc
      rw [Bool.and_eq_true, beq_iff_eq, beq_iff_eq] at hc
      exact hv ⟨by omega, by omega, by omega⟩
    simp [ordersOf, hemp]

/-! ### C3: the week set assigned to an outlet -/

theorem foldl_assign_weeks (row : InRow) :
    ∀ (ws : List Nat) (st : SchedState × List Rec),
      ((ws.foldl (assignStep row) st).2).map (·.week) = st.2.map (·.week) ++ ws := by
  intro ws
  induction ws with
  | nil => simp
  | cons w ws ih =>
    intro st
    rw [List.foldl_cons, ih, assignStep_trace]
    have hw : (recOf st.1 row w).week = w := rfl
    simp [hw]

theorem rowRecs_weeks (s : SchedState) (row : InRow) :
    (rowRecs s row).map (·.week) = weeksFor s row := by
  show ((weeksFor s row).foldl (assignStep row) (s, [])).2.map (·.week) = weeksFor s row
  rw [foldl_assign_weeks]
  simp

/-- C3: the weeks an outlet is scheduled into are a function of its
parsed frequency: 2 gives weeks 1 and 3, 3 gives 1, 2, 4, at least 4
gives all four weeks, and 1 gives the single week whose running load
counter is smallest when the outlet is processed, ties broken by the
lowest week number. -/
theorem weeks_by_frequency (s : SchedState) (row : InRow) :
    (parse_freq row.frequency = 2 → (rowRecs s row).map (·.week) = [1, 3]) ∧
    (parse_freq row.frequency = 3 → (rowRecs s row).map (·.week) = [1, 2, 4]) ∧
    (4 ≤ parse_freq row.frequency → (rowRecs s row).map (·.week) = [1, 2, 3, 4]) ∧
    (parse_freq row.frequency = 1 →
      (rowRecs s row).map (·.week) = [argminWeek s] ∧
      argminWeek s ∈ WEEKS ∧
      (∀ w ∈ WEEKS, weekLoadOf s (argminWeek s) ≤ weekLoadOf s w) ∧
      (∀ w ∈ WEEKS, weekLoadOf s w = weekLoadOf s (argminWeek s) → argminWeek s ≤ w)) := by
  rw [rowRecs_weeks]
  refine ⟨fun h2 => ?_, fun h3 => ?_, fun h4 => ?_, fun h1 => ?_⟩
  · unfold weeksFor
    rw [h2]
    rfl
  · unfold weeksFor
    rw [h3]
    rfl
  · unfold weeksFor pick_weeks
    rw [if_neg (by omega), if_neg (by omega), if_neg (by omega)]
  · have hw : weeksFor s row = [argminWeek s] := by
      unfold weeksFor
      rw [h1]
      rfl
    have hb := argminWeek_bounds s
    have hmem : argminWeek s ∈ ([1, 2, 3, 4] : List Nat) := by
      simp only [List.mem_cons, List.mem_singleton]
      omega
    exact ⟨hw, hmem, fun w hw' => argminWeek_min s w hw',
      fun w hw' he => argminWeek_tie s w hw' he⟩

/-- Witness for C3: a frequency-3 outlet from the initial state is
scheduled into weeks 1, 2 and 4. -/
theorem weeks_by_frequency_witness :
    (rowRecs initState (mkRow 5 (some "3") none)).map (·.week) = [1, 2, 4] :=
  (weeks_by_frequency initState (mkRow 5 (some "3") none)).2.1 (by decide)

/-! ### C5: the frequency parser -/

theorem firstDigitRun_none (cs : List Char) (h : firstDigitRun cs = none) :
    ∀ c ∈ cs, c.isDigit = false := by
  induction cs with
  | nil => simp
  | cons c cs ih =>
    rw [firstDigitRun] at h
    by_cases hc : c.isDigit = true
    · rw [if_pos hc] at h
      exact absurd h (by simp)
    · rw [if_neg hc] at h
      intro c' hc'
      rcases List.mem_cons.mp hc' with rfl | hmem
      · exact Bool.not_eq_true _ ▸ hc
      · exact ih h c' hmem

theorem mem_pyStrip (cs : List Char) (c : Char) (h : c ∈ pyStrip cs) : c ∈ cs := by
  unfold pyStrip at h
  rw [List.mem_reverse] at h
  have h1 := (List.dropWhile_sublist (l := (cs.dropWhile isPySpace).reverse)
    (p := isPySpace)).subset h
  rw [List.mem_reverse] at h1
  exact (List.dropWhile_sublist (l := cs) (p := isPySpace)).subset h1

theorem all_digit_false (l : List Char) (hl : ∀ c ∈ l, c.isDigit = false)
    (hne : l ≠ []) : l.all Char.isDigit = false := by
  cases l with
  | nil => exact absurd rfl hne
  | cons d ds =>
    rw [List.all_cons, hl d (by simp)]
    rfl

theorem mem_pySign_snd (t : List Char) (c : Char) (h : c ∈ (pySign t).2) : c ∈ t := by
  cases t with
  | nil => simp [pySign] at h
  | cons x r =>
    revert h
    simp only [pySign]
    split_ifs <;> intro h
    · exact List.mem_cons_of_mem x h
    · exact List.mem_cons_of_mem x h
    · exact h

theorem pyIntParse_eq_none (cs : List Char) (h : ∀ c ∈ cs, c.isDigit = false) :
    pyIntParse cs = none := by
  have hl : ∀ c ∈ (pySign (pyStrip cs)).2, c.isDigit = false :=
    fun c hc => h c (mem_pyStrip cs c (mem_pySign_snd _ c hc))
  unfold pyIntParse
  rw [if_neg]
  rintro ⟨hne, hall⟩
  rw [all_digit_false _ hl hne] at hall
  exact Bool.false_ne_true hall

/-- C5 amended: the parser is total and never signals; it returns the
first integer substring when one exists and the default 1 otherwise (the
full numeric parse in between never succeeds, since a string with no
digit has no integer parse).  The result is a nonnegative integer, but
not always positive: input "0" yields 0. -/
theorem parse_freq_total_nonneg (v : Option (List Char)) :
    0 ≤ parse_freq v ∧ parse_freq v = parse_freq_spec v := by
  cases v with
  | none => exact ⟨by norm_num [parse_freq], rfl⟩
  | some s =>
    cases hf : firstDigitRun s with
    | some n =>
      refine ⟨?_, by simp [parse_freq, parse_freq_spec, hf]⟩
      simp only [parse_freq, hf]
      exact Int.natCast_nonneg n
    | none =>
      have hip : pyIntParse s = none := pyIntParse_eq_none s (firstDigitRun_none s hf)
      refine ⟨?_, by simp [parse_freq, parse_freq_spec, hf, hip]⟩
      simp [parse_freq, hf, hip]

/-- C5 counterexample: the claim's "always a positive integer ≥ 1" fails
at the frequency cell "0", which parses to 0. -/
theorem parse_freq_zero_counterexample :
    parse_freq (some ("0".toList)) = 0 ∧ ¬ (1 ≤ parse_freq (some ("0".toList))) := by
  decide

/-! ### C6: a failing pairwise distance query aborts the sequencer -/

/-- C6 (code bug, evaluated): one unreachable pair aborts the tour
construction.  The `min(unvisited, key=lambda n: shortest_path_length...)`
on route_logic.py line 174 evaluates the key with no exception handler,
so the `NetworkXNoPath` raised for the pair (1, 2) escapes
`optimize_daily_route` (result `none`), and `process_route` catches it
and returns an error — no outlet is placed and no plan is written,
against the claim that sequencing always completes with the failing pair
contributing 0.  The `try/except` on lines 175-179 only guards a repeat
of a query that already succeeded inside `min`. -/
theorem unreachable_pair_aborts_sequencing :
    optimize_daily_route orcBad rowsBad = none ∧
    process_route orcBad inBad ("ANA V".toList) ("7".toList) 1 ("MON".toList) =
      ⟨RouteStatus.errException, none⟩ := by
  decide

/-! ### C7: node/outlet correspondence of the sequenced day -/

theorem dedupGo_eq_self :
    ∀ (l seen : List Nat), l.Nodup → (∀ a ∈ l, a ∉ seen) → dedupGo seen l = l := by
  intro l
  induction l with
  | nil => intro seen _ _; rfl
  | cons x xs ih =>
    intro seen hnd hsub
    rw [dedupGo, if_neg (hsub x (by simp))]
    have hx : x ∉ xs := (List.nodup_cons.mp hnd).1
    have htl : xs.Nodup := (List.nodup_cons.mp hnd).2
    rw [ih (x :: seen) htl ?_]
    intro a ha
    rw [List.mem_cons]
    rintro (rfl | hseen)
    · exact hx ha
    · exact hsub a (List.mem_cons_of_mem x ha) hseen

theorem argminBy_mem (f : Nat → Nat) :
    ∀ (xs : List Nat) (x : Nat), argminBy f x xs ∈ x :: xs := by
  intro xs
  induction xs with
  | nil => intro x; simp [argminBy]
  | cons y ys ih =>
    intro x
    have hstep : argminBy f x (y :: ys) = argminBy f (if f y < f x then y else x) ys := rfl
    rw [hstep]
    rcases List.mem_cons.mp (ih (if f y < f x then y else x)) with h | h
    · rw [h]
      split_ifs <;> simp
    · exact List.mem_cons_of_mem _ (List.mem_cons_of_mem _ h)

theorem nnLoop_perm (orc : Oracle) :
    ∀ (fuel cur : Nat) (us rest : List Nat) (t : Nat),
      nnLoop orc fuel cur us = some (rest, t) → rest.Perm us := by
  intro fuel
  induction fuel with
  | zero =>
    intro cur us rest t h
    cases us with
    | nil =>
      simp only [nnLoop] at h
      obtain ⟨rfl, -⟩ := Prod.mk.injEq .. ▸ Option.some.inj h
      rfl
    | cons u us' => simp [nnLoop] at h
  | succ n ih =>
    intro cur us rest t h
    cases us with
    | nil =>
      simp only [nnLoop] at h
      obtain ⟨rfl, -⟩ := Prod.mk.injEq .. ▸ Option.some.inj h
      rfl
    | cons u us' =>
      rw [nnLoop] at h
      by_cases hall : ((u :: us').all fun m => (orc.path cur m).isSome) = true
      · rw [if_pos hall] at h
        have hmem : argminBy (fun m => (orc.path cur m).getD 0) u us' ∈ u :: us' :=
          argminBy_mem _ us' u
        cases hrec : nnLoop orc n (argminBy (fun m => (orc.path cur m).getD 0) u us')
            ((u :: us').erase (argminBy (fun m => (orc.path cur m).getD 0) u us')) with
        | none => rw [hrec] at h; exact absurd h (by simp)
        | some pr =>
          obtain ⟨rest', t'⟩ := pr
          rw [hrec] at h
          have hperm := ih _ _ rest' t' hrec
          have hr : rest = argminBy (fun m => (orc.path cur m).getD 0) u us' :: rest' := by
            have := Option.some.inj h
            exact (congrArg Prod.fst this).symm
          subst hr
          exact (hperm.cons _).trans (List.perm_cons_erase hmem).symm
      · rw [if_neg hall] at h
        exact absurd h (by simp)

theorem nnLoop_isSome (orc : Oracle) (S : List Nat)
    (hS : ∀ a b, a ∈ S → b ∈ S → (orc.path a b).isSome = true) :
    ∀ (fuel cur : Nat) (us : List Nat), us.length ≤ fuel → cur ∈ S →
      (∀ n ∈ us, n ∈ S) → (nnLoop orc fuel cur us).isSome = true := by
  intro fuel
  induction fuel with
  | zero =>
    intro cur us hlen _ _
    have : us = [] := List.length_eq_zero.mp (Nat.le_zero.mp hlen)
    subst this
    simp [nnLoop]
  | succ n ih =>
    intro cur us hlen hcur hus
    cases us with
    | nil => simp [nnLoop]
    | cons u us' =>
      have hall : ((u :: us').all fun m => (orc.path cur m).isSome) = true := by
        rw [List.all_eq_true]
        exact fun m hm => hS cur m hcur (hus m hm)
      rw [nnLoop, if_pos hall]
      have hmem : argminBy (fun m => (orc.path cur m).getD 0) u us' ∈ u :: us' :=
        argminBy_mem _ us' u
      have hlen' : ((u :: us').erase
          (argminBy (fun m => (orc.path cur m).getD 0) u us')).length ≤ n := by
        rw [List.length_erase_of_mem hmem]
        simp only [List.length_cons] at hlen ⊢
        omega
      have hrec := ih _ _ hlen' (hus _ hmem)
        (fun m hm => hus m (List.erase_subset _ _ hm))
      cases hrec2 : nnLoop orc n (argminBy (fun m => (orc.path cur m).getD 0) u us')
          ((u :: us').erase (argminBy (fun m => (orc.path cur m).getD 0) u us')) with
      | none => rw [hrec2] at hrec; exact absurd hrec (by simp)
      | some pr => obtain ⟨rest, t⟩ := pr; rfl

theorem filterMap_idxOf?_self :
    ∀ (l : List Nat), l.Nodup → l.filterMap (idxOf? l) = List.range l.length := by
  intro l
  induction l with
  | nil => intro _; rfl
  | cons x xs ih =>
    intro hnd
    have hx : x ∉ xs := (List.nodup_cons.mp hnd).1
    have htl : xs.Nodup := (List.nodup_cons.mp hnd).2
    have hhead : idxOf? (x :: xs) x = some 0 := by rw [idxOf?, if_pos rfl]
    have hcons : (x :: xs).filterMap (idxOf? (x :: xs)) =
        0 :: xs.filterMap (idxOf? (x :: xs)) := by
      rw [List.filterMap_cons, hhead]
    rw [hcons]
    have hcongr : xs.filterMap (idxOf? (x :: xs)) =
        xs.filterMap (fun n => (idxOf? xs n).map (· + 1)) := by
      refine List.filterMap_congr fun n hn => ?_
      have hxn : ¬ x = n := by rintro rfl; exact hx hn
      rw [idxOf?, if_neg hxn]
    rw [hcongr, ← List.map_filterMap, ih htl]
    simp only [List.length_cons, List.range_succ_eq_map]

theorem range_filterMap_get (l : List Rec) :
    (List.range l.length).filterMap (fun i => l.get? i) = l := by
  induction l with
  | nil => rfl
  | cons x xs ih =>
    rw [List.length_cons, List.range_succ_eq_map, List.filterMap_cons]
    have h0 : (x :: xs).get? 0 = some x := rfl
    rw [h0, List.filterMap_map]
    have hcomp : ((List.range xs.length).filterMap
        ((fun i => (x :: xs).get? i) ∘ Nat.succ)) =
        (List.range xs.length).filterMap (fun i => xs.get? i) :=
      List.filterMap_congr fun i _ => rfl
    rw [hcomp, ih]

theorem reindexFrom_map_id (n : Nat) (l : List Rec) :
    (reindexFrom n l).map (·.outletId) = l.map (·.outletId) := by
  induction l generalizing n with
  | nil => rfl
  | cons x xs ih => simp [reindexFrom, ih]

theorem reindexFrom_map_vo (n : Nat) (l : List Rec) :
    (reindexFrom n l).map (·.visitOrder) = List.range' n l.length := by
  induction l generalizing n with
  | nil => rfl
  | cons x xs ih => simp [reindexFrom, ih, List.range']

theorem reindexFrom_length (n : Nat) (l : List Rec) :
    (reindexFrom n l).length = l.length := by
  induction l generalizing n with
  | nil => rfl
  | cons x xs ih => simp [reindexFrom, ih]

theorem nodesOf_length (orc : Oracle) (rows : List Rec) :
    (nodesOf orc rows).length = rows.length := List.length_map _ _

/-- C7 counterexample: with duplicated coordinates the claim fails.  Two
distinct outlets (ids 1 and 2) share coordinates and resolve to the same
node of `orcDup`; `set(nodes[1:])` collapses the duplicate and
`nodes.index(n)` maps every visit of that node back to the FIRST row, so
the sequencer's output lists outlet 1 twice and drops outlet 2. -/
theorem duplicate_nodes_collapse_counterexample :
    2 ≤ rowsDup.length ∧ rowsDup.map (·.outletId) = [1, 2] ∧
    (∀ r ∈ rowsDup, r.lat.isSome = true ∧ r.lon.isSome = true) ∧
    (optimize_daily_route orcDup rowsDup).map (fun res => res.rows.map (·.outletId)) =
      some [1, 1] := by
  decide

/-- C7 amended: for a day slice of k >= 2 coordinate-bearing outlets
whose resolved nodes are pairwise distinct, and whose pairwise path
queries all succeed, the sequencer completes and its output contains
exactly the k input outlets, each once (a permutation of the input ids);
with duplicated nodes the correspondence collapses to the first row of
each node (see the counterexample), and a failing query aborts the run
(see C6). -/
theorem sequencer_preserves_outlets (orc : Oracle) (rows : List Rec)
    (h2 : 2 ≤ rows.length)
    (hco : ∀ r ∈ rows, r.lat.isSome = true ∧ r.lon.isSome = true)
    (hnd : (nodesOf orc rows).Nodup)
    (hok : ∀ a ∈ nodesOf orc rows, ∀ b ∈ nodesOf orc rows,
      (orc.path a b).isSome = true) :
    ∃ res, optimize_daily_route orc rows = some res ∧
      res.rows.length = rows.length ∧
      (res.rows.map (·.outletId)).Perm (rows.map (·.outletId)) := by
  have hmiss : hasMissingCoord rows = false := by
    rw [hasMissingCoord, List.any_eq_false]
    intro r hr
    obtain ⟨hl, hlo⟩ := hco r hr
    cases hL : r.lat with
    | none => rw [hL] at hl; exact absurd hl (by simp)
    | some v =>
      cases hLo : r.lon with
      | none => rw [hLo] at hlo; exact absurd hlo (by simp)
      | some w => simp [hL, hLo]
  have hcond : (hasMissingCoord rows || decide (rows.length < 2)) = false := by
    rw [hmiss, decide_eq_false (by omega)]
    rfl
  cases hn : nodesOf orc rows with
  | nil =>
    have := nodesOf_length orc rows
    rw [hn] at this
    simp only [List.length_nil] at this
    omega
  | cons start rest =>
    have hndc : (start :: rest).Nodup := hn ▸ hnd
    have hstartnotin : start ∉ rest := (List.nodup_cons.mp hndc).1
    have hrestnd : rest.Nodup := (List.nodup_cons.mp hndc).2
    have hdedup : dedupGo [] rest = rest :=
      dedupGo_eq_self rest [] hrestnd (by simp)
    have hokS : ∀ a b, a ∈ start :: rest → b ∈ start :: rest →
        (orc.path a b).isSome = true := fun a b ha hb => hok a (hn ▸ ha) b (hn ▸ hb)
    have hsome : (nnLoop orc rest.length start rest).isSome = true :=
      nnLoop_isSome orc (start :: rest) hokS rest.length start rest le_rfl (by simp)
        (fun m hm => List.mem_cons_of_mem _ hm)
    cases hloop : nnLoop orc rest.length start rest with
    | none => rw [hloop] at hsome; exact absurd hsome (by simp)
    | some pr =>
      obtain ⟨visits, total⟩ := pr
      have hvis : visits.Perm rest := nnLoop_perm orc rest.length start rest visits total hloop
      have hres : optimize_daily_route orc rows = some
          ⟨reindexFrom 1 (((start :: visits).filterMap
              (idxOf? (start :: rest))).filterMap (fun i => rows.get? i)),
            some (start :: visits), total⟩ := by
        unfold optimize_daily_route
        rw [hcond]
        simp only [Bool.false_eq_true, if_false]
        rw [hn]
        simp only
        rw [hdedup, hloop]
      have hroute : (start :: visits).Perm (start :: rest) := hvis.cons start
      have horder : ((start :: visits).filterMap (idxOf? (start :: rest))).Perm
          (List.range (start :: rest).length) := by
        have hfm := hroute.filterMap (idxOf? (start :: rest))
        rw [filterMap_idxOf?_self (start :: rest) hndc] at hfm
        exact hfm
      have hrows : (((start :: visits).filterMap
          (idxOf? (start :: rest))).filterMap (fun i => rows.get? i)).Perm rows := by
        have hfm2 := horder.filterMap (fun i => rows.get? i)
        have hlenr : (start :: rest).length = rows.length := by
          have := nodesOf_length orc rows
          rw [hn] at this
          exact this
        rw [hlenr, range_filterMap_get rows] at hfm2
        exact hfm2
      refine ⟨_, hres, ?_, ?_⟩
      · rw [reindexFrom_length]
        exact hrows.length_eq
      · rw [reindexFrom_map_id]
        exact hrows.map (·.outletId)

/-- Witness for the amended C7: three outlets with distinct nodes under
the total oracle are each placed exactly once. -/
theorem sequencer_preserves_outlets_witness :
    ∃ res, optimize_daily_route orcTotal rowsTri = some res ∧
      res.rows.length = rowsTri.length ∧
      (res.rows.map (·.outletId)).Perm (rowsTri.map (·.outletId)) :=
  sequencer_preserves_outlets orcTotal rowsTri (by decide) (by decide) (by decide)
    (by decide)

/-! ### C8: the deliberate skip branch -/

/-- C8: a day slice with fewer than 2 outlets, or with any missing
coordinate, skips sequencing: the run succeeds, the output keeps the
input row order, `visit_order` is reassigned 1..k by position, no route
is produced and the reported distance is exactly 0. -/
theorem sequencer_skip_branch (orc : Oracle) (rows : List Rec)
    (h : rows.length < 2 ∨ ∃ r ∈ rows, r.lat = none ∨ r.lon = none) :
    optimize_daily_route orc rows = some ⟨reindexFrom 1 rows, none, 0⟩ ∧
    (reindexFrom 1 rows).map (·.outletId) = rows.map (·.outletId) ∧
    (reindexFrom 1 rows).map (·.visitOrder) = List.range' 1 rows.length := by
  have hcond : (hasMissingCoord rows || decide (rows.length < 2)) = true := by
    rcases h with h | ⟨r, hr, hl⟩
    · rw [decide_eq_true h, Bool.or_true]
    · have hm : hasMissingCoord rows = true := by
        rw [hasMissingCoord, List.any_eq_true]
        exact ⟨r, hr, by rcases hl with hl | hl <;> simp [hl]⟩
      rw [hm, Bool.true_or]
  refine ⟨?_, reindexFrom_map_id 1 rows, reindexFrom_map_vo 1 rows⟩
  unfold optimize_daily_route
  rw [hcond]
  simp only [if_true]

/-- Witness for C8 at a one-outlet slice. -/
theorem sequencer_skip_branch_witness :
    optimize_daily_route orcTotal rowsOne = some ⟨reindexFrom 1 rowsOne, none, 0⟩ ∧
    (reindexFrom 1 rowsOne).map (·.outletId) = rowsOne.map (·.outletId) ∧
    (reindexFrom 1 rowsOne).map (·.visitOrder) = List.range' 1 rowsOne.length :=
  sequencer_skip_branch orcTotal rowsOne (Or.inl (by decide))

/-! ### C9: structured failures on missing input -/

/-- C9: a run whose officer filter is empty returns the error with the
"no records" message and writes no plan; a run whose requested (week,
day) slice of the generated plan is empty returns the error with the "no
data for slice" message and writes no plan. -/
theorem missing_input_structured_failure (orc : Oracle) (rows : List InRow)
    (soName soErp : List Char) (week : Nat) (day : List Char) :
    ((rows.filter (matchesOfficer soName soErp)).isEmpty = true →
      process_route orc rows soName soErp week day = ⟨RouteStatus.errNoRecords, none⟩) ∧
    (∀ plan, generate_route_plan rows soName soErp = some plan →
      (sliceOf plan week day).isEmpty = true →
      process_route orc rows soName soErp week day =
        ⟨RouteStatus.errNoDataForSlice, none⟩) := by
  constructor
  · intro hemp
    unfold process_route generate_route_plan
    rw [hemp]
    rfl
  · intro plan hgen hsl
    unfold process_route
    rw [hgen]
    simp [hsl]

/-- Witness for C9 at two concrete runs: an empty input, and a
single-MON-outlet input queried for week 1 TUE. -/
theorem missing_input_structured_failure_witness :
    process_route orcTotal [] ("ANA V".toList) ("7".toList) 1 ("MON".toList) =
      ⟨RouteStatus.errNoRecords, none⟩ ∧
    process_route orcTotal inSmall ("ANA V".toList) ("7".toList) 1 ("TUE".toList) =
      ⟨RouteStatus.errNoDataForSlice, none⟩ :=
  ⟨(missing_input_structured_failure orcTotal [] ("ANA V".toList) ("7".toList) 1
      ("MON".toList)).1 (by decide),
   (missing_input_structured_failure orcTotal inSmall ("ANA V".toList) ("7".toList) 1
      ("TUE".toList)).2
      (scheduleRows (inSmall.filter (matchesOfficer ("ANA V".toList) ("7".toList))))
      (by decide) (by decide)⟩

/-! ### C10: the persisted plan comes from the scheduler alone -/

theorem generate_route_plan_eq (rows : List InRow) (soName soErp : List Char)
    (plan : List Rec) (h : generate_route_plan rows soName soErp = some plan) :
    plan = scheduleRows (rows.filter (matchesOfficer soName soErp)) := by
  unfold generate_route_plan at h
  by_cases hemp : (rows.filter (matchesOfficer soName soErp)).isEmpty = true
  · rw [hemp] at h
    exact absurd h (by simp)
  · rw [Bool.not_eq_true] at hemp
    rw [hemp] at h
    simpa using (Option.some.inj h).symm

/-- C10: whenever a `process_route` run writes a plan, the written plan
is the sorted scheduler output for the filtered input — a value that
does not mention the requested (week, day), the oracle, or the
sequencer's result, so every run that writes at all writes the same
rows, with the same VISIT_ORDER values, and the sequencer's reordering
is never written back. -/
theorem written_plan_from_scheduler_only (orc : Oracle) (rows : List InRow)
    (soName soErp : List Char) (week : Nat) (day : List Char) (p : List Rec)
    (h : (process_route orc rows soName soErp week day).written = some p) :
    p = sortPlan (scheduleRows (rows.filter (matchesOfficer soName soErp))) := by
  unfold process_route at h
  cases hg : generate_route_plan rows soName soErp with
  | none =>
    rw [hg] at h
    exact absurd h (by simp)
  | some routeDf =>
    rw [hg] at h
    dsimp only at h
    cases hb : (sliceOf routeDf week day).isEmpty with
    | true =>
      rw [hb] at h
      exact absurd h (by simp)
    | false =>
      rw [hb] at h
      simp only [Bool.false_eq_true, if_false] at h
      cases ho : optimize_daily_route orc (sliceOf routeDf week day) with
      | none =>
        rw [ho] at h
        exact absurd h (by simp)
      | some res =>
        rw [ho] at h
        have hp : p = sortPlan routeDf := (Option.some.inj h).symm
        rw [hp, generate_route_plan_eq rows soName soErp routeDf hg]

/-- Witness for C10: the single-outlet run writes exactly the sorted
scheduler plan. -/
theorem written_plan_from_scheduler_only_witness :
    (process_route orcTotal inSmall ("ANA V".toList) ("7".toList) 1
        ("MON".toList)).written = some planSmall ∧
    planSmall = sortPlan (scheduleRows (inSmall.filter
      (matchesOfficer ("ANA V".toList) ("7".toList)))) :=
  ⟨by decide,
   written_plan_from_scheduler_only orcTotal inSmall ("ANA V".toList) ("7".toList) 1
     ("MON".toList) planSmall (by decide)⟩

end KitchenTreasure
